import Mathlib

/-!
Shallow embedding of the rust_compressed_json_codec repository.

Bytes are modelled as natural numbers (the encoder only ever produces
values below 256); Vec of u8 becomes List Nat.  Machine integers (u64,
usize) are modelled as Nat with an explicit % 2^64 at every operation
where the Rust value can wrap.  Rust strings are modelled by their
UTF-8 byte sequences (List Nat).  The f64 payload of Float is modelled
by its 64-bit little-endian bit pattern.
-/

namespace varint

/-- From src/varint.rs: LIMITS. -/
def LIMITS : List Nat :=
  [0x80, 0x4000, 0x200000, 0x10000000, 0x0800000000, 0x040000000000,
   0x02000000000000, 0x0100000000000000, 0x8000000000000000]

/-- From src/varint.rs: BASE_VALUE, the cumulative sums of LIMITS. -/
def BASE_VALUE : List Nat :=
  [0,
   0x80,
   0x80 + 0x4000,
   0x80 + 0x4000 + 0x200000,
   0x80 + 0x4000 + 0x200000 + 0x10000000,
   0x80 + 0x4000 + 0x200000 + 0x10000000 + 0x0800000000,
   0x80 + 0x4000 + 0x200000 + 0x10000000 + 0x0800000000 + 0x040000000000,
   0x80 + 0x4000 + 0x200000 + 0x10000000 + 0x0800000000 + 0x040000000000 +
     0x02000000000000,
   0x80 + 0x4000 + 0x200000 + 0x10000000 + 0x0800000000 + 0x040000000000 +
     0x02000000000000 + 0x0100000000000000,
   0x80 + 0x4000 + 0x200000 + 0x10000000 + 0x0800000000 + 0x040000000000 +
     0x02000000000000 + 0x0100000000000000 + 0x8000000000000000]

/-- The byte-pushing loop of std_encode: each byte is (n AND 0x7F) OR 0x80,
then n is shifted right by 7.  (src/varint.rs, std_encode, loop body) -/
def std_encode_raw : Nat → Nat → List Nat
  | _, 0 => []
  | n, nb + 1 => ((n &&& 0x7F) ||| 0x80) :: std_encode_raw (n >>> 7) nb

/-- Clearing the continuation bit of the final byte:
ret[nb_bytes - 1] AND= 0x7F.  (src/varint.rs, std_encode, last line) -/
def clear_last_msb : List Nat → List Nat
  | [] => []
  | [b] => [b &&& 0x7F]
  | b :: rest => b :: clear_last_msb rest

/-- src/varint.rs std_encode: push nb_bytes continuation bytes, then clear
the high bit of the last one. -/
def std_encode (n nb_bytes : Nat) : List Nat :=
  clear_last_msb (std_encode_raw n nb_bytes)

/-- The loop of src/varint.rs encode: walk LIMITS, subtracting each limit
until n fits, tracking the enumeration index. -/
def encode_loop : Nat → List Nat → Nat → List Nat
  | n, [], nb_bytes => std_encode n (nb_bytes + 1)
  | n, limit :: rest, nb_bytes =>
    if n < limit then std_encode n (nb_bytes + 1)
    else encode_loop (n - limit) rest (nb_bytes + 1)

/-- src/varint.rs encode. -/
def encode (n : Nat) : List Nat := encode_loop n LIMITS 0

inductive DecodeError where
  | MissingBytes
  | ValueTooBig
deriving DecidableEq

/-- The loop of src/varint.rs std_decode: iterate over at most
LIMITS.len() + 1 = 10 bytes, OR-ing in 7-bit chunks (the u64 shift wraps
modulo 2^64), stopping at the first byte with a clear high bit. -/
def std_decode_go : List Nat → Nat → Nat → Option (Nat × Nat)
  | [], _, _ => none
  | b :: rest, i, ret =>
    if i < LIMITS.length + 1 then
      let ret := ret ||| (((b &&& 0x7F) <<< (7 * i)) % 2 ^ 64)
      if b &&& 0x80 == 0 then some (ret, i + 1)
      else std_decode_go rest (i + 1) ret
    else none

/-- src/varint.rs std_decode. -/
def std_decode (data : List Nat) : Except DecodeError (Nat × Nat) :=
  match std_decode_go data 0 0 with
  | some r => .ok r
  | none =>
    if data.length > LIMITS.length + 1 then .error .ValueTooBig
    else .error .MissingBytes

/-- src/varint.rs decode: std_decode then add the base value for the
number of bytes consumed (u64 addition, hence the % 2^64). -/
def decode (data : List Nat) : Except DecodeError (Nat × Nat) :=
  match std_decode data with
  | .error e => .error e
  | .ok (extra, nb_bytes) =>
    .ok ((extra + BASE_VALUE.getD (nb_bytes - 1) 0) % 2 ^ 64, nb_bytes)

theorem std_encode_raw_length (n nb : Nat) : (std_encode_raw n nb).length = nb := by
  induction nb generalizing n with
  | zero => rfl
  | succ nb ih => simp [std_encode_raw, ih]

theorem clear_last_msb_length (l : List Nat) : (clear_last_msb l).length = l.length := by
  induction l with
  | nil => rfl
  | cons b rest ih =>
    cases rest with
    | nil => rfl
    | cons c cs => simpa [clear_last_msb] using ih

theorem std_encode_length (n nb : Nat) : (std_encode n nb).length = nb := by
  simp [std_encode, clear_last_msb_length, std_encode_raw_length]

theorem clear_last_msb_cons (b : Nat) (l : List Nat) (h : l ≠ []) :
    clear_last_msb (b :: l) = b :: clear_last_msb l := by
  cases l with
  | nil => exact absurd rfl h
  | cons c cs => rfl

theorem and127_or128 (n : Nat) : ((n &&& 127) ||| 128) &&& 127 = n &&& 127 := by
  apply Nat.eq_of_testBit_eq
  intro i
  have h127 : (127 : Nat) = 2 ^ 7 - 1 := by norm_num
  have h128 : (128 : Nat) = 2 ^ 7 := by norm_num
  simp only [Nat.testBit_land, Nat.testBit_lor, h127, h128,
    Nat.testBit_two_pow_sub_one, Nat.testBit_two_pow]
  rcases Nat.lt_or_ge i 7 with h | h
  · simp [show ¬(7 = i) by omega, show i < 7 by omega]
  · simp [show ¬(i < 7) by omega]

theorem or128_and128 (n : Nat) : ((n &&& 127) ||| 128) &&& 128 = 128 := by
  have ht : ((n &&& 127) ||| 128).testBit 7 = true := by
    rw [Nat.testBit_lor]
    have h2 : (128 : Nat).testBit 7 = true := by decide
    simp [h2]
  calc ((n &&& 127) ||| 128) &&& 128 = ((n &&& 127) ||| 128) &&& 2 ^ 7 := by norm_num
    _ = (((n &&& 127) ||| 128).testBit 7).toNat * 2 ^ 7 := Nat.and_two_pow _ 7
    _ = 128 := by rw [ht]; norm_num

theorem and127_and128 (n : Nat) : (n &&& 127) &&& 128 = 0 := by
  rw [Nat.and_assoc, (by decide : (127 &&& 128 : Nat) = 0), Nat.and_zero]

theorem std_decode_go_cons (b : Nat) (rest : List Nat) (i ret : Nat) (h : i < 10) :
    std_decode_go (b :: rest) i ret =
      if b &&& 0x80 == 0 then some (ret ||| ((b &&& 0x7F) <<< (7 * i)) % 2 ^ 64, i + 1)
      else std_decode_go rest (i + 1) (ret ||| ((b &&& 0x7F) <<< (7 * i)) % 2 ^ 64) := by
  rw [std_decode_go]
  rw [if_pos (show i < LIMITS.length + 1 by simp [LIMITS]; omega)]

theorem chunk_or (n s : Nat) :
    ((n &&& 127) <<< s) ||| ((n >>> 7) <<< (s + 7)) = n <<< s := by
  apply Nat.eq_of_testBit_eq
  intro i
  have h127 : (127 : Nat) = 2 ^ 7 - 1 := by norm_num
  simp only [Nat.testBit_lor, Nat.testBit_shiftLeft, Nat.testBit_shiftRight,
    Nat.testBit_land, h127, Nat.testBit_two_pow_sub_one]
  rcases Nat.lt_or_ge i s with h | h
  · simp [show ¬(i ≥ s) by omega, show ¬(i ≥ s + 7) by omega]
  · rcases Nat.lt_or_ge i (s + 7) with h7 | h7
    · simp [show i ≥ s by omega, show ¬(i ≥ s + 7) by omega, show i - s < 7 by omega]
    · have e : 7 + (i - (s + 7)) = i - s := by omega
      simp [show i ≥ s by omega, show i ≥ s + 7 by omega, e,
        show ¬(i - s < 7) by omega]

theorem std_decode_go_std_encode (k : Nat) :
    ∀ little i ret : Nat,
      i + (k + 1) ≤ 10 →
      little < 2 ^ (7 * (k + 1)) →
      little * 2 ^ (7 * i) < 2 ^ 64 →
      std_decode_go (std_encode little (k + 1)) i ret
        = some (ret ||| (little <<< (7 * i)), i + (k + 1)) := by
  induction k with
  | zero =>
    intro little i ret h10 hlt hsh
    have hb : std_encode little 1 = [little &&& 127] := by
      simp [std_encode, std_encode_raw, clear_last_msb, and127_or128]
    have hlit : little &&& 127 = little := by
      rw [show (127 : Nat) = 2 ^ 7 - 1 by norm_num,
        Nat.and_pow_two_sub_one_eq_mod]
      exact Nat.mod_eq_of_lt (by simpa using hlt)
    have hand : (little &&& 127) &&& 127 = little &&& 127 := by
      rw [Nat.and_assoc, (by decide : (127 &&& 127 : Nat) = 127)]
    have hstop : (little &&& 127) &&& 128 = 0 := and127_and128 little
    rw [hb, std_decode_go_cons _ _ _ _ (by omega), hstop, hand, hlit]
    rw [Nat.mod_eq_of_lt (by rw [Nat.shiftLeft_eq]; exact hsh)]
    norm_num
  | succ k ih =>
    intro little i ret h10 hlt hsh
    have hraw : std_encode little (k + 2)
        = ((little &&& 127) ||| 128) :: std_encode (little >>> 7) (k + 1) := by
      rw [std_encode, std_encode_raw, clear_last_msb_cons]
      · rfl
      · intro h
        have := std_encode_raw_length (little >>> 7) (k + 1)
        rw [h] at this
        simp at this
    have hchunk : ((little &&& 127) ||| 128) &&& 127 = little &&& 127 :=
      and127_or128 little
    have hshlt : (little &&& 127) <<< (7 * i) < 2 ^ 64 := by
      rw [Nat.shiftLeft_eq]
      calc (little &&& 127) * 2 ^ (7 * i) ≤ little * 2 ^ (7 * i) :=
            Nat.mul_le_mul_right _ Nat.and_le_left
        _ < 2 ^ 64 := hsh
    have hnext1 : little >>> 7 < 2 ^ (7 * (k + 1)) := by
      rw [Nat.shiftRight_eq_div_pow]
      rw [Nat.div_lt_iff_lt_mul (by norm_num : 0 < 2 ^ 7)]
      calc little < 2 ^ (7 * (k + 2)) := hlt
        _ = 2 ^ (7 * (k + 1)) * 2 ^ 7 := by rw [← pow_add]; ring_nf
    have hnext2 : (little >>> 7) * 2 ^ (7 * (i + 1)) < 2 ^ 64 := by
      rw [Nat.shiftRight_eq_div_pow]
      calc little / 2 ^ 7 * 2 ^ (7 * (i + 1))
            = little / 2 ^ 7 * 2 ^ 7 * 2 ^ (7 * i) := by
              rw [mul_assoc, ← pow_add]; ring_nf
        _ ≤ little * 2 ^ (7 * i) :=
              Nat.mul_le_mul_right _ (Nat.div_mul_le_self _ _)
        _ < 2 ^ 64 := hsh
    rw [hraw, std_decode_go_cons _ _ _ _ (by omega), hchunk,
      Nat.mod_eq_of_lt hshlt]
    have hcont : (((little &&& 127) ||| 128) &&& 128 == 0) = false := by
      rw [or128_and128]; rfl
    rw [hcont]
    simp only [Bool.false_eq_true, if_false]
    rw [ih (little >>> 7) (i + 1) (ret ||| ((little &&& 127) <<< (7 * i)))
      (by omega) hnext1 hnext2]
    have hv : ret ||| ((little &&& 127) <<< (7 * i)) ||| ((little >>> 7) <<< (7 * (i + 1)))
        = ret ||| (little <<< (7 * i)) := by
      rw [Nat.lor_assoc]
      congr 1
      rw [show 7 * (i + 1) = 7 * i + 7 by ring]
      exact chunk_or little (7 * i)
    rw [hv, show i + 1 + (k + 1) = i + (k + 1 + 1) by omega]

theorem std_decode_std_encode (k little : Nat) (hk : k + 1 ≤ 10)
    (h1 : little < 2 ^ (7 * (k + 1))) (h2 : little < 2 ^ 64) :
    std_decode (std_encode little (k + 1)) = .ok (little, k + 1) := by
  rw [std_decode, std_decode_go_std_encode k little 0 0 (by omega) h1 (by simpa using h2)]
  simp

set_option maxHeartbeats 2000000 in
/-- Shared roundtrip lemma for the varint codec: decoding an encoded u64
recovers the value and consumes the whole encoding. -/
theorem decode_encode_aux (n : Nat) (hn : n < 2 ^ 64) :
    decode (encode n) = .ok (n, (encode n).length) := by
  have step : ∀ k little, k + 1 ≤ 10 → little < 2 ^ (7 * (k + 1)) → little < 2 ^ 64 →
      (little + BASE_VALUE.getD k 0) % 2 ^ 64 = n →
      decode (std_encode little (k + 1))
        = .ok (n, (std_encode little (k + 1)).length) := by
    intro k little hk h1 h2 hsum
    rw [std_encode_length, decode, std_decode_std_encode k little hk h1 h2]
    simpa using hsum
  rw [encode]
  simp only [LIMITS, encode_loop]
  split_ifs with h1 h2 h3 h4 h5 h6 h7 h8 h9
  · exact step 0 n (by norm_num) (by norm_num; omega) hn (by simp [BASE_VALUE]; omega)
  · exact step 1 _ (by norm_num) (by norm_num; omega) (by omega)
      (by simp [BASE_VALUE]; omega)
  · exact step 2 _ (by norm_num) (by norm_num; omega) (by omega)
      (by simp [BASE_VALUE]; omega)
  · exact step 3 _ (by norm_num) (by norm_num; omega) (by omega)
      (by simp [BASE_VALUE]; omega)
  · exact step 4 _ (by norm_num) (by norm_num; omega) (by omega)
      (by simp [BASE_VALUE]; omega)
  · exact step 5 _ (by norm_num) (by norm_num; omega) (by omega)
      (by simp [BASE_VALUE]; omega)
  · exact step 6 _ (by norm_num) (by norm_num; omega) (by omega)
      (by simp [BASE_VALUE]; omega)
  · exact step 7 _ (by norm_num) (by norm_num; omega) (by omega)
      (by simp [BASE_VALUE]; omega)
  · exact step 8 _ (by norm_num) (by norm_num; omega) (by omega)
      (by simp [BASE_VALUE]; omega)
  · exact step 9 _ (by norm_num) (by norm_num; omega) (by omega)
      (by simp [BASE_VALUE]; omega)

end varint

namespace data_type

def SPECIAL : Nat := 0
def INTEGER : Nat := 1
def FLOAT : Nat := 2
def STRING : Nat := 3
def ARRAY : Nat := 4
def OBJECT : Nat := 5
def ALIAS : Nat := 6

inductive DataType where
  | Special
  | Integer
  | Float
  | String
  | Array
  | Object
  | Alias
deriving DecidableEq

/-- From src/define/data_type.rs, DataType::from.  The source match lists
the constants SPECIAL(0), INTEGER(1), FLOAT(2), STRING(3), ARRAY(4),
OBJECT(5) and then a wildcard returning None; there is no arm for
ALIAS(6), so 6 falls through to None. -/
def DataType.fromTag (n : Nat) : Option DataType :=
  match n with
  | 0 => some .Special
  | 1 => some .Integer
  | 2 => some .Float
  | 3 => some .String
  | 4 => some .Array
  | 5 => some .Object
  | _ => none

end data_type

namespace special_type

def NONE : Nat := 0
def NULL : Nat := 1
def DEFINE : Nat := 2
def FORGET : Nat := 3

inductive SpecialType where
  | None
  | Null
  | Define
  | Forget
deriving DecidableEq

/-- From src/define/special_type.rs, SpecialType::from. -/
def SpecialType.fromTag (n : Nat) : Option SpecialType :=
  match n with
  | 0 => some .None
  | 1 => some .Null
  | 2 => some .Define
  | 3 => some .Forget
  | _ => none

end special_type

/-- src/encoded_data.rs EncodedInteger.  u64 payloads are Nat. -/
inductive EncodedInteger where
  | Positive (n : Nat)
  | Negative (n : Nat)
  | Bool (b : Bool)
deriving DecidableEq

mutual
/-- src/encoded_data.rs EncodedSpecial. -/
inductive EncodedSpecial where
  | None
  | Null
  | Define (o : EncodedData)
  | Forget (id : Nat)

/-- src/encoded_data.rs EncodedData.  A Rust String is modelled by its
UTF-8 bytes (List Nat), an f64 by its 64-bit bit pattern, and the
HashMap of an Object by an association list. -/
inductive EncodedData where
  | Special (s : EncodedSpecial)
  | Integer (i : EncodedInteger)
  | Float (bits : Nat)
  | String (s : List Nat)
  | Array (xs : List EncodedData)
  | Object (entries : List (List Nat × EncodedData))
  | Alias (id : Nat)
end

/-- Little-endian byte serialization of a k-byte unsigned integer: the
to_le_bytes calls of src/encoded_data.rs. -/
def le_bytes : Nat → Nat → List Nat
  | 0, _ => []
  | k + 1, n => n % 256 :: le_bytes k (n / 256)

/-- Little-endian reassembly: the from_le_bytes calls of
src/encoded_data.rs. -/
def from_le_bytes (bs : List Nat) : Nat :=
  bs.foldr (fun b acc => b + 256 * acc) 0

/-- src/encoded_data.rs encode_compact_u64: pick 1, 2, 4 or 8
little-endian bytes by magnitude. -/
def encode_compact_u64 (n : Nat) : List Nat :=
  if n ≤ 0xFF then le_bytes 1 n
  else if n ≤ 0xFFFF then le_bytes 2 n
  else if n ≤ 0xFFFFFFFF then le_bytes 4 n
  else le_bytes 8 n

/-- src/encoded_data.rs encode_data_type_length, faithfully including
flag_mask = (max_flag_size >> 1) - 1, which for max_flag_bit = 5 is 7 and
keeps only the low 3 bits of n - max_flag_size in the header byte. -/
def encode_data_type_length (n : Nat) (max_flag_bit : Nat) : Nat × List Nat :=
  let max_flag_size := 1 <<< (max_flag_bit - 1)
  let flag_mask := (max_flag_size >>> 1) - 1
  if n < max_flag_size then (n, [])
  else
    let continue_flag := 1 <<< (max_flag_bit - 1)
    let n1 := n - max_flag_size
    let flag_value := (n1 &&& flag_mask) ||| continue_flag
    let n2 := n1 >>> (max_flag_bit - 1)
    (flag_value, varint.encode n2)

mutual
/-- src/encoded_data.rs EncodedData::encode. -/
def EncodedData.encode : EncodedData → List Nat
  | .Special .None => [data_type.SPECIAL <<< 5 ||| special_type.NONE]
  | .Special .Null => [data_type.SPECIAL <<< 5 ||| special_type.NULL]
  | .Special (.Define o) =>
      (data_type.SPECIAL <<< 5 ||| special_type.DEFINE) :: o.encode
  | .Special (.Forget id) =>
      (data_type.SPECIAL <<< 5 ||| special_type.FORGET) :: varint.encode id
  | .Integer (.Positive n) =>
      let encoded := encode_compact_u64 n
      (data_type.INTEGER <<< 5 ||| encoded.length) :: encoded
  | .Integer (.Negative n) =>
      let encoded := encode_compact_u64 n
      (data_type.INTEGER <<< 5 ||| 1 <<< 4 ||| encoded.length) :: encoded
  | .Integer (.Bool b) =>
      [data_type.INTEGER <<< 5 ||| (if b then 1 else 0) <<< 4]
  | .Float bits => (data_type.FLOAT <<< 5 ||| 8) :: le_bytes 8 bits
  | .String s =>
      let fl := encode_data_type_length s.length 5
      (data_type.STRING <<< 5 ||| fl.1) :: (fl.2 ++ s)
  | .Array xs =>
      let fl := encode_data_type_length xs.length 5
      (data_type.ARRAY <<< 5 ||| fl.1) :: (fl.2 ++ encode_list xs)
  | .Object m =>
      let fl := encode_data_type_length m.length 5
      (data_type.OBJECT <<< 5 ||| fl.1) :: (fl.2 ++ encode_entries m)
  | .Alias id =>
      let fl := encode_data_type_length id 5
      (data_type.ALIAS <<< 5 ||| fl.1) :: fl.2

/-- The element loop of the Array arm of EncodedData::encode. -/
def encode_list : List EncodedData → List Nat
  | [] => []
  | o :: rest => o.encode ++ encode_list rest

/-- The entry loop of the Object arm of EncodedData::encode: varint of the
key byte length, the raw key bytes, then the encoded value. -/
def encode_entries : List (List Nat × EncodedData) → List Nat
  | [] => []
  | (k, o) :: rest => varint.encode k.length ++ k ++ o.encode ++ encode_entries rest
end

/-- src/encoded_data.rs DecodeError.  BadUtf8 carries the valid_up_to
position of the std Utf8Error. -/
inductive DecodeError where
  | UnknownDataType (v : Nat)
  | UnknownSpecialType (v : Nat)
  | MissingBytes (n : Nat)
  | VarintTooBig
  | BadUtf8 (valid_up_to : Nat)
deriving DecidableEq

/-- Outcome of running a piece of the decoder.  ok and err mirror the Rust
Result; crash marks executions where the source performs an out-of-bounds
get_unchecked read or a panicking clone_from_slice, neither of which
returns a value. -/
inductive DResult (α : Type) where
  | ok (val : α)
  | err (e : DecodeError)
  | crash

/-- Whether b is a UTF-8 continuation byte (0x80..=0xBF). -/
def utf8_cont (b : Nat) : Bool := 0x80 ≤ b && b ≤ 0xBF

/-- UTF-8 validation as performed by std::str::from_utf8: returns none if
the bytes are valid, and some p with the valid_up_to position of the first
invalid sequence otherwise.  Rejects overlong forms, surrogates and
values above U+10FFFF. -/
def utf8_validate : List Nat → Nat → Option Nat
  | [], _ => none
  | b0 :: rest, pos =>
    if b0 < 0x80 then utf8_validate rest (pos + 1)
    else if 0xC2 ≤ b0 && b0 ≤ 0xDF then
      match rest with
      | b1 :: rest2 =>
        if utf8_cont b1 then utf8_validate rest2 (pos + 2) else some pos
      | [] => some pos
    else if b0 = 0xE0 then
      match rest with
      | b1 :: b2 :: rest3 =>
        if 0xA0 ≤ b1 && b1 ≤ 0xBF && utf8_cont b2 then utf8_validate rest3 (pos + 3)
        else some pos
      | _ => some pos
    else if (0xE1 ≤ b0 && b0 ≤ 0xEC) || b0 = 0xEE || b0 = 0xEF then
      match rest with
      | b1 :: b2 :: rest3 =>
        if utf8_cont b1 && utf8_cont b2 then utf8_validate rest3 (pos + 3)
        else some pos
      | _ => some pos
    else if b0 = 0xED then
      match rest with
      | b1 :: b2 :: rest3 =>
        if 0x80 ≤ b1 && b1 ≤ 0x9F && utf8_cont b2 then utf8_validate rest3 (pos + 3)
        else some pos
      | _ => some pos
    else if b0 = 0xF0 then
      match rest with
      | b1 :: b2 :: b3 :: rest4 =>
        if 0x90 ≤ b1 && b1 ≤ 0xBF && utf8_cont b2 && utf8_cont b3 then
          utf8_validate rest4 (pos + 4)
        else some pos
      | _ => some pos
    else if 0xF1 ≤ b0 && b0 ≤ 0xF3 then
      match rest with
      | b1 :: b2 :: b3 :: rest4 =>
        if utf8_cont b1 && utf8_cont b2 && utf8_cont b3 then
          utf8_validate rest4 (pos + 4)
        else some pos
      | _ => some pos
    else if b0 = 0xF4 then
      match rest with
      | b1 :: b2 :: b3 :: rest4 =>
        if 0x80 ≤ b1 && b1 ≤ 0x8F && utf8_cont b2 && utf8_cont b3 then
          utf8_validate rest4 (pos + 4)
        else some pos
      | _ => some pos
    else some pos

/-- src/encoded_data.rs decode_compact_u64.  The source reads size bytes
for size 1, 2 or 4 and falls back to reading 8 bytes for every other
size; all reads are get_unchecked, so a slice shorter than the read is
undefined behaviour, modelled as none. -/
def decode_compact_u64 (data : List Nat) (size : Nat) : Option Nat :=
  if size = 1 then
    if 1 ≤ data.length then some (from_le_bytes (data.take 1)) else none
  else if size = 2 then
    if 2 ≤ data.length then some (from_le_bytes (data.take 2)) else none
  else if size = 4 then
    if 4 ≤ data.length then some (from_le_bytes (data.take 4)) else none
  else
    if 8 ≤ data.length then some (from_le_bytes (data.take 8)) else none

/-- The length/continuation decoding block that the String, Array and
Object arms of EncodedData::decode each repeat verbatim: low 4 bits from
the header byte ctrl, and if bit 4 is set a varint continuation, giving
((varint << 4) | low4) + 0x10 with usize wrap-around. -/
def decode_length_field (ctrl : Nat) (rest : List Nat) : DResult (Nat × Nat) :=
  let length := ctrl &&& 0x0F
  if ctrl &&& 0x10 != 0 then
    match varint.decode rest with
    | .error .MissingBytes => .err (.MissingBytes 1)
    | .error .ValueTooBig => .err .VarintTooBig
    | .ok (length_head, size) =>
      .ok (((((length_head <<< 4) % 2 ^ 64) ||| length) + 0x10) % 2 ^ 64, 1 + size)
  else
    .ok (length, 1)

/-- The HashMap::insert of the Object decode loop: replace the value of an
existing key, otherwise add the entry. -/
def hashmap_insert (m : List (List Nat × EncodedData)) (k : List Nat)
    (v : EncodedData) : List (List Nat × EncodedData) :=
  if m.any (fun e => e.1 == k) then m.map (fun e => if e.1 == k then (k, v) else e)
  else m ++ [(k, v)]

/-- The element loop of the Array arm of EncodedData::decode, generic in
the recursive Self::decode call f. -/
def decode_elemsG (f : List Nat → DResult (EncodedData × Nat)) :
    Nat → List Nat → DResult (List EncodedData × Nat)
  | 0, _ => .ok ([], 0)
  | count + 1, d =>
    match f d with
    | .err e => .err e
    | .crash => .crash
    | .ok (o, size) =>
      match decode_elemsG f count (d.drop size) with
      | .err e => .err e
      | .crash => .crash
      | .ok (list, tot) => .ok (o :: list, size + tot)

/-- The entry loop of the Object arm of EncodedData::decode, generic in
the recursive Self::decode call f: varint key length, bounds-checked key
bytes with UTF-8 validation, recursive value, inserted in loop order into
the map accumulator. -/
def decode_pairsG (f : List Nat → DResult (EncodedData × Nat)) :
    Nat → List Nat → List (List Nat × EncodedData) →
    DResult (List (List Nat × EncodedData) × Nat)
  | 0, _, map => .ok (map, 0)
  | count + 1, d, map =>
    match varint.decode d with
    | .error .MissingBytes => .err (.MissingBytes 1)
    | .error .ValueTooBig => .err .VarintTooBig
    | .ok (k_length, size) =>
      let d1 := d.drop size
      if d1.length < k_length then .err (.MissingBytes (k_length - d1.length))
      else
        let k := d1.take k_length
        match utf8_validate k 0 with
        | some p => .err (.BadUtf8 p)
        | none =>
          let d2 := d1.drop k_length
          match f d2 with
          | .err e => .err e
          | .crash => .crash
          | .ok (o, s2) =>
            match decode_pairsG f count (d2.drop s2) (hashmap_insert map k o) with
            | .err e => .err e
            | .crash => .crash
            | .ok (m, tot) => .ok (m, size + k_length + s2 + tot)

/-- src/encoded_data.rs EncodedData::decode, with an explicit fuel
parameter expressing the recursion structurally; fuel data.length + 1
always suffices because every level of nesting consumes at least the
one-byte header of the outer value. -/
def decodeF : Nat → List Nat → DResult (EncodedData × Nat)
  | 0, _ => .crash
  | fuel + 1, data =>
    match data with
    | [] => .err (.MissingBytes 1)
    | ctrl :: rest =>
      let data_type_value := ctrl >>> 5
      match data_type.DataType.fromTag data_type_value with
      | none => .err (.UnknownDataType data_type_value)
      | some dt =>
        match dt with
        | .Special =>
          let special_type_value := ctrl &&& 0x1F
          match special_type.SpecialType.fromTag special_type_value with
          | none => .err (.UnknownSpecialType special_type_value)
          | some st =>
            match st with
            | .None => .ok (.Special .None, 1)
            | .Null => .ok (.Special .Null, 1)
            | .Define =>
              if rest.length + 1 < 2 then .err (.MissingBytes 1)
              else
                match decodeF fuel rest with
                | .err e => .err e
                | .crash => .crash
                | .ok (object, size) => .ok (.Special (.Define object), 1 + size)
            | .Forget =>
              match varint.decode rest with
              | .error .MissingBytes => .err (.MissingBytes 1)
              | .error .ValueTooBig => .err .VarintTooBig
              | .ok (id, size) => .ok (.Special (.Forget id), 1 + size)
        | .Integer =>
          let length := ctrl &&& 0x0F
          let negative := ctrl &&& 0x10 != 0
          if length == 0 then .ok (.Integer (.Bool negative), 1)
          else if rest.length + 1 < 1 + length then
            .err (.MissingBytes (1 + length - (rest.length + 1)))
          else
            match decode_compact_u64 rest length with
            | none => .crash
            | some n =>
              if negative then .ok (.Integer (.Negative n), 1 + length)
              else .ok (.Integer (.Positive n), 1 + length)
        | .Float =>
          if rest.length = 8 then .ok (.Float (from_le_bytes rest), 1 + 8)
          else .crash
        | .String =>
          match decode_length_field ctrl rest with
          | .err e => .err e
          | .crash => .crash
          | .ok (length, size) =>
            if size + length ≤ rest.length + 1 then
              let payload := ((ctrl :: rest).drop size).take length
              match utf8_validate payload 0 with
              | some p => .err (.BadUtf8 p)
              | none => .ok (.String payload, size + length)
            else .crash
        | .Array =>
          match decode_length_field ctrl rest with
          | .err e => .err e
          | .crash => .crash
          | .ok (length, size) =>
            match decode_elemsG (decodeF fuel) length ((ctrl :: rest).drop size) with
            | .err e => .err e
            | .crash => .crash
            | .ok (list, tot) => .ok (.Array list, size + tot)
        | .Object =>
          match decode_length_field ctrl rest with
          | .err e => .err e
          | .crash => .crash
          | .ok (length, size) =>
            match decode_pairsG (decodeF fuel) length ((ctrl :: rest).drop size) [] with
            | .err e => .err e
            | .crash => .crash
            | .ok (map, tot) => .ok (.Object map, size + tot)
        | .Alias =>
          let id := ctrl &&& 0x0F
          if ctrl &&& 0x10 != 0 then
            match varint.decode rest with
            | .error .MissingBytes => .err (.MissingBytes 1)
            | .error .ValueTooBig => .err .VarintTooBig
            | .ok (id_head, size) =>
              .ok (.Alias (((id_head <<< 3) % 2 ^ 64) ||| id), 1 + size)
          else .ok (.Alias id, 1)

/-- src/encoded_data.rs EncodedData::decode, at its natural fuel. -/
def EncodedData.decode (data : List Nat) : DResult (EncodedData × Nat) :=
  decodeF (data.length + 1) data

/-- serde_json Number, as stored internally: a u64, a genuinely negative
i64, or an f64 (kept as its bit pattern). -/
inductive JNumber where
  | PosInt (n : Nat)
  | NegInt (n : Int)
  | Float (bits : Nat)
deriving DecidableEq

/-- serde_json Value, with strings as UTF-8 bytes and objects as
association lists. -/
inductive JValue where
  | Null
  | Bool (b : Bool)
  | Number (n : JNumber)
  | Str (s : List Nat)
  | Array (xs : List JValue)
  | Object (entries : List (List Nat × JValue))

/-- serde_json From i64 for Number: negative values are stored as NegInt,
the rest as PosInt. -/
def jnumber_from_i64 (v : Int) : JNumber :=
  if v < 0 then .NegInt v else .PosInt v.toNat

/-- IEEE-754 binary64 finiteness read off the bit pattern: NaN and the two
infinities are exactly the patterns whose 11 exponent bits are all ones. -/
def f64_is_finite (bits : Nat) : Bool := (bits >>> 52) &&& 0x7FF != 0x7FF

/-- serde_json Number::from_f64: some only for finite floats. -/
def jnumber_from_f64 (bits : Nat) : Option JNumber :=
  if f64_is_finite bits then some (.Float bits) else none

/-- src/encoded_data.rs EncodedDataToJsonError. -/
inductive EncodedDataToJsonError where
  | NegativeIntegerTooBig (n : Nat)
  | BadFloat (bits : Nat)
  | UnsupportedAliasDataType
  | UnsupportedNoneDataType
  | UnsupportedDefineDataType
  | UnsupportedForgetDataType
deriving DecidableEq

mutual
/-- src/encoded_data.rs TryFrom EncodedData for serde_json::Value.
Negative(n) goes through i64::try_from(n), which requires
n ≤ i64::MAX = 2^63 - 1, then negates and converts the i64. -/
def tryFromED : EncodedData → Except EncodedDataToJsonError JValue
  | .Special .Null => .ok .Null
  | .Special .None => .error .UnsupportedNoneDataType
  | .Special (.Define _) => .error .UnsupportedDefineDataType
  | .Special (.Forget _) => .error .UnsupportedForgetDataType
  | .Integer (.Bool b) => .ok (.Bool b)
  | .Integer (.Positive n) => .ok (.Number (.PosInt n))
  | .Integer (.Negative n) =>
    if n ≤ 0x7FFFFFFFFFFFFFFF then .ok (.Number (jnumber_from_i64 (-(n : Int))))
    else .error (.NegativeIntegerTooBig n)
  | .Float bits =>
    match jnumber_from_f64 bits with
    | some m => .ok (.Number m)
    | none => .error (.BadFloat bits)
  | .String s => .ok (.Str s)
  | .Array l =>
    match tryFromList l with
    | .ok xs => .ok (.Array xs)
    | .error e => .error e
  | .Object m =>
    match tryFromEntries m with
    | .ok es => .ok (.Object es)
    | .error e => .error e
  | .Alias _ => .error .UnsupportedAliasDataType

/-- The collect over Array elements in the TryFrom implementation: stop at
the first error. -/
def tryFromList : List EncodedData → Except EncodedDataToJsonError (List JValue)
  | [] => .ok []
  | o :: rest =>
    match tryFromED o with
    | .error e => .error e
    | .ok v =>
      match tryFromList rest with
      | .error e => .error e
      | .ok vs => .ok (v :: vs)

/-- The collect over Object entries in the TryFrom implementation. -/
def tryFromEntries : List (List Nat × EncodedData) →
    Except EncodedDataToJsonError (List (List Nat × JValue))
  | [] => .ok []
  | (k, o) :: rest =>
    match tryFromED o with
    | .error e => .error e
    | .ok v =>
      match tryFromEntries rest with
      | .error e => .error e
      | .ok vs => .ok ((k, v) :: vs)
end

/-- Whether an Except value is Ok. -/
def exceptIsOk {α : Type} : Except EncodedDataToJsonError α → Bool
  | .ok _ => true
  | .error _ => false

mutual
/-- Spec-side predicate for the amended claim 5, written from the claim
text: conversion to JSON succeeds except for Special::None,
Special::Define, Special::Forget, Alias, Negative(n) with n ≥ 2^63, and
non-finite Floats, including when such a value occurs nested inside an
Array or Object. -/
def json_convertible_spec : EncodedData → Bool
  | .Special .None => false
  | .Special .Null => true
  | .Special (.Define _) => false
  | .Special (.Forget _) => false
  | .Integer (.Bool _) => true
  | .Integer (.Positive _) => true
  | .Integer (.Negative n) => decide (n < 2 ^ 63)
  | .Float bits => f64_is_finite bits
  | .String _ => true
  | .Array l => json_convertible_list l
  | .Object m => json_convertible_entries m
  | .Alias _ => false

/-- All elements of a list are convertible. -/
def json_convertible_list : List EncodedData → Bool
  | [] => true
  | o :: rest => json_convertible_spec o && json_convertible_list rest

/-- All values of an entry list are convertible. -/
def json_convertible_entries : List (List Nat × EncodedData) → Bool
  | [] => true
  | (_, o) :: rest => json_convertible_spec o && json_convertible_entries rest
end

namespace stream_compressor

/-- Modelled from the spec: the constant encoded_data::STRING_FLAG_LENGTH_SIZE
referenced by src/stream_compressor.rs is not defined anywhere under src/.
Per spec section 4.3 the String header keeps F - 1 = 4 bits of the length
inline, so the initial right shift discards those 4 header bits. -/
def STRING_FLAG_LENGTH_SIZE : Nat := 4

/-- src/stream_compressor.rs CacheEntry. -/
structure CacheEntry where
  index : Nat
  max_gain : Nat
  nb_use : Nat
deriving DecidableEq

/-- src/stream_compressor.rs CacheEntry::new: nb_use starts at 0. -/
def CacheEntry.new (index max_gain : Nat) : CacheEntry :=
  { index := index, nb_use := 0, max_gain := max_gain }

/-- src/stream_compressor.rs PotentialCacheEntry. -/
structure PotentialCacheEntry where
  max_gain : Nat
  nb_use : Nat
deriving DecidableEq

/-- src/stream_compressor.rs PotentialCacheEntry::new: nb_use starts at 0. -/
def PotentialCacheEntry.new (max_gain : Nat) : PotentialCacheEntry :=
  { nb_use := 0, max_gain := max_gain }

/-- src/stream_compressor.rs StringCache; the two HashMaps are modelled as
association lists keyed by the UTF-8 bytes of the string. -/
structure StringCache where
  cache : List (List Nat × CacheEntry)
  future_cache : List (List Nat × PotentialCacheEntry)

/-- src/stream_compressor.rs CachingResult. -/
inductive CachingResult where
  | Some (index : Nat)
  | FutureCached
  | None
deriving DecidableEq

/-- The while loop computing s_length_size in StringCache::get_cached:
size += 1 and s_length <<= 7 (a usize shift, wrapping modulo 2^64) until
s_length is zero.  For any 64-bit s_length the wrapped shifts clear every
bit within 10 iterations, so fuel 64 is more than enough. -/
def s_length_size_loop : Nat → Nat → Nat → Nat
  | 0, _, size => size
  | fuel + 1, s_length, size =>
    if 0 < s_length then s_length_size_loop fuel ((s_length <<< 7) % 2 ^ 64) (size + 1)
    else size

/-- The s_length_size computation of StringCache::get_cached: start at 1,
shift the byte length right by STRING_FLAG_LENGTH_SIZE, then run the
while loop. -/
def s_length_size_of (len : Nat) : Nat :=
  s_length_size_loop 64 (len >>> STRING_FLAG_LENGTH_SIZE) 1

/-- The get_mut + nb_use += 1 on the active cache map. -/
def bump_cache (m : List (List Nat × CacheEntry)) (s : List Nat) :
    List (List Nat × CacheEntry) :=
  m.map (fun e => if e.1 == s then (e.1, { e.2 with nb_use := e.2.nb_use + 1 }) else e)

/-- The get_mut + nb_use += 1 on the future cache map. -/
def bump_future (m : List (List Nat × PotentialCacheEntry)) (s : List Nat) :
    List (List Nat × PotentialCacheEntry) :=
  m.map (fun e => if e.1 == s then (e.1, { e.2 with nb_use := e.2.nb_use + 1 }) else e)

/-- HashMap::insert on the future cache map: replace an existing key or
append a new entry. -/
def insert_future (m : List (List Nat × PotentialCacheEntry)) (k : List Nat)
    (v : PotentialCacheEntry) : List (List Nat × PotentialCacheEntry) :=
  if m.any (fun e => e.1 == k) then m.map (fun e => if e.1 == k then (k, v) else e)
  else m ++ [(k, v)]

/-- src/stream_compressor.rs StringCache::get_cached; the mutation of self
is returned as the second component. -/
def StringCache.get_cached (self : StringCache) (s : List Nat)
    (available_future_cache : Bool) : CachingResult × StringCache :=
  match self.cache.lookup s with
  | some entry => (.Some entry.index, { self with cache := bump_cache self.cache s })
  | none =>
    match self.future_cache.lookup s with
    | some _ => (.None, { self with future_cache := bump_future self.future_cache s })
    | none =>
      if available_future_cache then
        let gain := s_length_size_of s.length + s.length
        let min_loss := 1
        let fc :=
          if min_loss < gain then
            insert_future self.future_cache s (PotentialCacheEntry.new (gain - min_loss))
          else self.future_cache
        (.FutureCached, { self with future_cache := fc })
      else (.None, self)

/-- src/stream_compressor.rs Cache. -/
structure Cache where
  strings : StringCache
  available_cache : Nat
  available_future_cache : Nat

/-- src/stream_compressor.rs Cache::new. -/
def Cache.new (max_cache max_future_cache : Nat) : Cache :=
  { strings := { cache := [], future_cache := [] },
    available_cache := max_cache,
    available_future_cache := max_future_cache }

/-- src/stream_compressor.rs Cache::get_cached: strings go through the
string cache (decrementing the future-cache budget on FutureCached);
every other value returns None untouched. -/
def Cache.get_cached (self : Cache) (o : EncodedData) : Option Nat × Cache :=
  match o with
  | .String s =>
    match self.strings.get_cached s (decide (0 < self.available_future_cache)) with
    | (.Some index, strings1) => (some index, { self with strings := strings1 })
    | (.None, strings1) => (none, { self with strings := strings1 })
    | (.FutureCached, strings1) =>
      (none,
        { self with
            strings := strings1
            available_future_cache := self.available_future_cache - 1 })
  | _ => (none, self)

/-- src/stream_compressor.rs DecodeError of the stream compressor. -/
inductive SCDecodeError where
  | BadFormat (e : DecodeError)
deriving DecidableEq

/-- Outcome of StreamCompressor::decompress. -/
inductive SCResult where
  | ok (o : EncodedData) (size : Nat)
  | err (e : SCDecodeError)
  | crash

/-- src/stream_compressor.rs StreamCompressor::compress: exactly
EncodedData::encode, an associated function without self, touching no
cache. -/
def StreamCompressor.compress (object : EncodedData) : List Nat :=
  object.encode

/-- src/stream_compressor.rs StreamCompressor::decompress:
EncodedData::decode with the error wrapped in BadFormat; a crash of the
decoder propagates. -/
def StreamCompressor.decompress (data : List Nat) : SCResult :=
  match EncodedData.decode data with
  | .ok (decoded, size) => .ok decoded size
  | .err e => .err (.BadFormat e)
  | .crash => .crash

end stream_compressor

theorem le_bytes_length (k n : Nat) : (le_bytes k n).length = k := by
  induction k generalizing n with
  | zero => rfl
  | succ k ih => simp [le_bytes, ih]

theorem tryFromList_isOk (l : List EncodedData)
    (H : ∀ x ∈ l, exceptIsOk (tryFromED x) = json_convertible_spec x) :
    exceptIsOk (tryFromList l) = json_convertible_list l := by
  induction l with
  | nil => rfl
  | cons o rest ih =>
    have ho := H o (by simp)
    have hrest := ih (fun x hx => H x (by simp [hx]))
    rw [tryFromList, json_convertible_list]
    cases h : tryFromED o with
    | error e =>
      rw [h] at ho
      simp only [exceptIsOk] at ho
      simp [exceptIsOk, ← ho]
    | ok v =>
      rw [h] at ho
      simp only [exceptIsOk] at ho
      rw [← ho, Bool.true_and]
      cases h2 : tryFromList rest with
      | error e2 =>
        rw [h2] at hrest
        simpa [exceptIsOk] using hrest
      | ok vs =>
        rw [h2] at hrest
        simpa [exceptIsOk] using hrest

theorem tryFromEntries_isOk (m : List (List Nat × EncodedData))
    (H : ∀ p ∈ m, exceptIsOk (tryFromED p.2) = json_convertible_spec p.2) :
    exceptIsOk (tryFromEntries m) = json_convertible_entries m := by
  induction m with
  | nil => rfl
  | cons p rest ih =>
    obtain ⟨k, o⟩ := p
    have ho := H (k, o) (by simp)
    have hrest := ih (fun q hq => H q (by simp [hq]))
    rw [tryFromEntries, json_convertible_entries]
    cases h : tryFromED o with
    | error e =>
      rw [h] at ho
      simp only [exceptIsOk] at ho
      simp [exceptIsOk, ← ho]
    | ok v =>
      rw [h] at ho
      simp only [exceptIsOk] at ho
      rw [← ho, Bool.true_and]
      cases h2 : tryFromEntries rest with
      | error e2 =>
        rw [h2] at hrest
        simpa [exceptIsOk] using hrest
      | ok vs =>
        rw [h2] at hrest
        simpa [exceptIsOk] using hrest

theorem tryFromED_isOk_aux : ∀ (n : Nat) (v : EncodedData), sizeOf v ≤ n →
    exceptIsOk (tryFromED v) = json_convertible_spec v := by
  intro n
  induction n with
  | zero =>
    intro v h
    exfalso
    cases v <;> simp_arith at h
  | succ n ih =>
    intro v hv
    cases v with
    | Special s =>
      cases s with
      | None => rfl
      | Null => rfl
      | Define o => rfl
      | Forget id => rfl
    | Integer i =>
      cases i with
      | Positive m => rfl
      | Bool b => rfl
      | Negative m =>
        simp only [tryFromED, json_convertible_spec]
        by_cases hm : m ≤ 0x7FFFFFFFFFFFFFFF
        · rw [if_pos hm]
          simp only [exceptIsOk]
          symm
          rw [decide_eq_true_eq]
          omega
        · rw [if_neg hm]
          simp only [exceptIsOk]
          symm
          rw [decide_eq_false_iff_not]
          omega
    | Float bits =>
      simp only [tryFromED, json_convertible_spec, jnumber_from_f64]
      by_cases hb : f64_is_finite bits
      · rw [if_pos hb, hb]
        rfl
      · rw [if_neg hb]
        simp only [exceptIsOk]
        symm
        rw [← Bool.not_eq_true]
        exact hb
    | String s => rfl
    | Alias id => rfl
    | Array l =>
      have H : ∀ x ∈ l, exceptIsOk (tryFromED x) = json_convertible_spec x := by
        intro x hx
        apply ih
        have h1 : sizeOf x < sizeOf l := List.sizeOf_lt_of_mem hx
        have h2 : sizeOf (EncodedData.Array l) = 1 + sizeOf l := by simp
        omega
      have hl := tryFromList_isOk l H
      simp only [tryFromED, json_convertible_spec]
      cases h : tryFromList l with
      | error e =>
        rw [h] at hl
        simpa [exceptIsOk] using hl
      | ok xs =>
        rw [h] at hl
        simpa [exceptIsOk] using hl
    | Object m =>
      have H : ∀ p ∈ m, exceptIsOk (tryFromED p.2) = json_convertible_spec p.2 := by
        intro p hp
        apply ih
        have h1 : sizeOf p < sizeOf m := List.sizeOf_lt_of_mem hp
        have h2 : sizeOf (EncodedData.Object m) = 1 + sizeOf m := by simp
        have h3 : sizeOf p.2 < sizeOf p := by
          obtain ⟨a, b⟩ := p
          simp
        omega
      have hm := tryFromEntries_isOk m H
      simp only [tryFromED, json_convertible_spec]
      cases h : tryFromEntries m with
      | error e =>
        rw [h] at hm
        simpa [exceptIsOk] using hm
      | ok es =>
        rw [h] at hm
        simpa [exceptIsOk] using hm

theorem s_length_size_loop_ge (fuel : Nat) :
    ∀ n size, size ≤ stream_compressor.s_length_size_loop fuel n size := by
  induction fuel with
  | zero => intro n size; exact Nat.le_refl _
  | succ fuel ih =>
    intro n size
    rw [stream_compressor.s_length_size_loop]
    split
    · exact Nat.le_trans (Nat.le_succ _) (ih _ _)
    · exact Nat.le_refl _

/-- Claim C1: the claim states decode(encode(v)) = (v, len(encode(v)))
for every value v; the code violates it already at v = Alias(0), whose
encoding [0xC0] is rejected with UnknownDataType(6) because
DataType::from has no arm for the ALIAS tag, leaving the Alias decode arm
unreachable. -/
theorem C1_alias_roundtrip_broken :
    EncodedData.decode ((EncodedData.Alias 0).encode) = .err (.UnknownDataType 6) := rfl

/-- Claim C2: the claim states the encoder stores the low 4 bits of
(value - 16) in the header; in the code flag_mask = (max_flag_size >> 1)
- 1 = 7 keeps only the low 3 bits and bit 3 of (value - 16) is lost, so
the length values 16 and 24 produce the identical header flag 0x10 with
varint 0x00, and a 24-byte string decodes back as its 16-byte prefix. -/
theorem C2_flag_mask_drops_bit3 :
    encode_data_type_length 24 5 = (0x10, [0x00]) ∧
    encode_data_type_length 16 5 = (0x10, [0x00]) ∧
    EncodedData.decode ((EncodedData.String (List.replicate 24 65)).encode)
      = .ok (.String (List.replicate 16 65), 18) :=
  ⟨rfl, rfl, rfl⟩

/-- Claim C3: the claim states every field read checks the remaining
buffer length and shortfalls return MissingBytes; the String arm performs
an unchecked get_unchecked(size..size + length) with no length check, so
the one-byte input 0x61 (String header, declared length 1, no payload)
reads out of bounds (modelled as crash) instead of returning
MissingBytes(1). -/
theorem C3_string_arm_unchecked_read :
    EncodedData.decode [0x61] = .crash := rfl

/-- Claim C4: the claim states header tag 6 dispatches to Alias decoding
and UnknownDataType occurs only for tags outside 0..6; in the code
DataType::from returns None for 6, so the single-byte input 0xC0 (tag 6)
fails with UnknownDataType(6). -/
theorem C4_alias_tag_rejected :
    data_type.DataType.fromTag 6 = none ∧
    EncodedData.decode [0xC0] = .err (.UnknownDataType 6) :=
  ⟨rfl, rfl⟩

/-- Claim C5 counterexample: the claim says conversion of Negative(2^63)
to JSON succeeds; the code runs i64::try_from(n) first, which fails for
n = 2^63 > i64::MAX, so the conversion errors with
NegativeIntegerTooBig. -/
theorem C5_negative_pow63_fails :
    tryFromED (.Integer (.Negative (2 ^ 63)))
      = .error (.NegativeIntegerTooBig (2 ^ 63)) := rfl

/-- Claim C5 (amended): conversion of an EncodedData value to JSON
succeeds exactly when the value contains no Special::None,
Special::Define, Special::Forget, Alias, Negative(n) with n ≥ 2^63
(rather than n > 2^63), and no non-finite Float, nesting included. -/
theorem C5_json_conversion_domain (v : EncodedData) :
    exceptIsOk (tryFromED v) = json_convertible_spec v :=
  tryFromED_isOk_aux (sizeOf v) v (Nat.le_refl _)

/-- Claim C6 counterexample: the claim asserts n ≥ 2^(8(w-1)) for chosen
widths w in {1,2,4}; it fails at n = 0 (width 1, but 0 < 2^0) and at
n = 65536 (width 4, but 65536 < 2^24). -/
theorem C6_lower_bound_fails :
    (encode_compact_u64 0).length = 1 ∧ ¬ 2 ^ (8 * (1 - 1)) ≤ 0 ∧
    (encode_compact_u64 65536).length = 4 ∧ ¬ 2 ^ (8 * (4 - 1)) ≤ 65536 :=
  ⟨rfl, by norm_num, rfl, by norm_num⟩

/-- Claim C6 (amended): the encoder picks w in {1,2,4,8}, n fits in w
bytes (n < 2^(8w)), and w is minimal among the supported widths: w = 2
forces n ≥ 2^8, w = 4 forces n ≥ 2^16, and w = 8 forces n ≥ 2^32. -/
theorem C6_compact_width_minimal (n : Nat) (hn : n < 2 ^ 64) :
    ((encode_compact_u64 n).length = 1 ∨ (encode_compact_u64 n).length = 2 ∨
      (encode_compact_u64 n).length = 4 ∨ (encode_compact_u64 n).length = 8) ∧
    n < 2 ^ (8 * (encode_compact_u64 n).length) ∧
    ((encode_compact_u64 n).length = 2 → 2 ^ 8 ≤ n) ∧
    ((encode_compact_u64 n).length = 4 → 2 ^ 16 ≤ n) ∧
    ((encode_compact_u64 n).length = 8 → 2 ^ 32 ≤ n) := by
  rw [encode_compact_u64]
  split_ifs with h1 h2 h3 <;> simp [le_bytes_length] <;> norm_num <;> omega

/-- Witness for claim C6 at n = 256: width 2 and both bounds hold. -/
theorem C6_compact_width_minimal_witness :
    (256 : Nat) < 2 ^ (8 * (encode_compact_u64 256).length) ∧
    ((encode_compact_u64 256).length = 2 → 2 ^ 8 ≤ 256) :=
  ⟨(C6_compact_width_minimal 256 (by norm_num)).2.1,
   (C6_compact_width_minimal 256 (by norm_num)).2.2.1⟩

/-- Claim C7: varint decode of varint encode returns the value and the
length of the encoding, for every u64. -/
theorem C7_varint_roundtrip (n : Nat) (hn : n < 2 ^ 64) :
    varint.decode (varint.encode n) = .ok (n, (varint.encode n).length) :=
  varint.decode_encode_aux n hn

/-- Witness for claim C7 at n = 300. -/
theorem C7_varint_roundtrip_witness :
    varint.decode (varint.encode 300) = .ok (300, (varint.encode 300).length) :=
  C7_varint_roundtrip 300 (by norm_num)

/-- Claim C8: the varint encoding is injective on u64 values, and the
encoded length strictly increases at every BASE_VALUE boundary. -/
theorem C8_varint_injective :
    (∀ n m : Nat, n < 2 ^ 64 → m < 2 ^ 64 → n ≠ m →
      varint.encode n ≠ varint.encode m) ∧
    (∀ k : Nat, k < 9 →
      (varint.encode (varint.BASE_VALUE.getD (k + 1) 0 - 1)).length
        < (varint.encode (varint.BASE_VALUE.getD (k + 1) 0)).length) := by
  constructor
  · intro n m hn hm hne he
    apply hne
    have h3 : (Except.ok (n, (varint.encode n).length)
        : Except varint.DecodeError (Nat × Nat)) = .ok (m, (varint.encode m).length) := by
      rw [← varint.decode_encode_aux n hn, ← varint.decode_encode_aux m hm, he]
    have h4 := Except.ok.inj h3
    exact congrArg Prod.fst h4
  · decide

/-- Witness for claim C8: 0 and 1 get distinct encodings, and the length
grows across the first boundary. -/
theorem C8_varint_injective_witness :
    varint.encode 0 ≠ varint.encode 1 ∧
    (varint.encode (varint.BASE_VALUE.getD 1 0 - 1)).length
      < (varint.encode (varint.BASE_VALUE.getD 1 0)).length :=
  ⟨C8_varint_injective.1 0 1 (by norm_num) (by norm_num) (by norm_num),
   C8_varint_injective.2 0 (by norm_num)⟩

/-- Claim C9: the cache lookup of the stream compressor.  An active-cache
hit bumps the use counter and returns the alias index; a future-cache hit
bumps the use counter and returns no index; otherwise, with future-cache
budget remaining and a positive estimated gain
(header_savings + string length - 1), the string enters the future cache
with use count 0 and the budget drops by one; in every remaining case
nothing is recorded and no index is returned. -/
theorem C9_cache_lookup (c : stream_compressor.Cache) (s : List Nat) :
    (∀ e, c.strings.cache.lookup s = some e →
      c.get_cached (.String s)
        = (some e.index,
           ⟨⟨stream_compressor.bump_cache c.strings.cache s, c.strings.future_cache⟩,
            c.available_cache, c.available_future_cache⟩)) ∧
    (c.strings.cache.lookup s = none →
      ∀ e, c.strings.future_cache.lookup s = some e →
      c.get_cached (.String s)
        = (none,
           ⟨⟨c.strings.cache, stream_compressor.bump_future c.strings.future_cache s⟩,
            c.available_cache, c.available_future_cache⟩)) ∧
    (c.strings.cache.lookup s = none →
      c.strings.future_cache.lookup s = none →
      0 < c.available_future_cache →
      0 < stream_compressor.s_length_size_of s.length + s.length - 1 →
      c.get_cached (.String s)
        = (none,
           ⟨⟨c.strings.cache,
             stream_compressor.insert_future c.strings.future_cache s
               ⟨stream_compressor.s_length_size_of s.length + s.length - 1, 0⟩⟩,
            c.available_cache, c.available_future_cache - 1⟩)) ∧
    (c.strings.cache.lookup s = none →
      c.strings.future_cache.lookup s = none →
      (c.available_future_cache = 0 ∨
        stream_compressor.s_length_size_of s.length + s.length - 1 = 0) →
      (c.get_cached (.String s)).1 = none ∧
        (c.get_cached (.String s)).2.strings = c.strings) := by
  refine ⟨?_, ?_, ?_, ?_⟩
  · intro e he
    simp only [stream_compressor.Cache.get_cached,
      stream_compressor.StringCache.get_cached, he]
  · intro h1 e h2
    simp only [stream_compressor.Cache.get_cached,
      stream_compressor.StringCache.get_cached, h1, h2]
  · intro h1 h2 h3 h4
    have hd : decide (0 < c.available_future_cache) = true := by
      rw [decide_eq_true_eq]; exact h3
    have hg : 1 < stream_compressor.s_length_size_of s.length + s.length := by omega
    simp only [stream_compressor.Cache.get_cached,
      stream_compressor.StringCache.get_cached, h1, h2, hd, if_true, if_pos hg]
    rfl
  · intro h1 h2 h34
    rcases h34 with h0 | hg
    · have hd : decide (0 < c.available_future_cache) = false := by
        rw [decide_eq_false_iff_not]; omega
      simp only [stream_compressor.Cache.get_cached,
        stream_compressor.StringCache.get_cached, h1, h2, hd, if_false]
      exact ⟨by trivial, by trivial⟩
    · by_cases h3 : 0 < c.available_future_cache
      · have hd : decide (0 < c.available_future_cache) = true := by
          rw [decide_eq_true_eq]; exact h3
        have hsz : 1 ≤ stream_compressor.s_length_size_of s.length :=
          s_length_size_loop_ge 64 _ 1
        have hgn : ¬ 1 < stream_compressor.s_length_size_of s.length + s.length := by
          omega
        simp only [stream_compressor.Cache.get_cached,
          stream_compressor.StringCache.get_cached, h1, h2, hd, if_true, if_neg hgn]
        exact ⟨by trivial, by trivial⟩
      · have hd : decide (0 < c.available_future_cache) = false := by
          rw [decide_eq_false_iff_not]; exact h3
        simp only [stream_compressor.Cache.get_cached,
          stream_compressor.StringCache.get_cached, h1, h2, hd, if_false]
        exact ⟨by trivial, by trivial⟩

/-- Witness for claim C9: a fresh cache with budget 5 admits the
single-byte string 97 into the future cache and decrements the budget. -/
theorem C9_cache_lookup_witness :
    (stream_compressor.Cache.new 5 5).get_cached (.String [97])
      = (none,
         ⟨⟨(stream_compressor.Cache.new 5 5).strings.cache,
           stream_compressor.insert_future
             (stream_compressor.Cache.new 5 5).strings.future_cache [97]
             ⟨stream_compressor.s_length_size_of (List.length [97])
                + (List.length [97]) - 1, 0⟩⟩,
          (stream_compressor.Cache.new 5 5).available_cache,
          (stream_compressor.Cache.new 5 5).available_future_cache - 1⟩) :=
  (C9_cache_lookup (stream_compressor.Cache.new 5 5) [97]).2.2.1 rfl rfl
    (by decide) (by decide)

/-- Claim C10: StreamCompressor::compress is byte-identical to
EncodedData::encode (it consults no cache and emits no records of its
own), and StreamCompressor::decompress is exactly EncodedData::decode
with the error wrapped in BadFormat. -/
theorem C10_stream_is_codec :
    (∀ o : EncodedData,
      stream_compressor.StreamCompressor.compress o = o.encode) ∧
    (∀ d o n, stream_compressor.StreamCompressor.decompress d = .ok o n ↔
      EncodedData.decode d = .ok (o, n)) ∧
    (∀ d e, stream_compressor.StreamCompressor.decompress d = .err (.BadFormat e) ↔
      EncodedData.decode d = .err e) ∧
    (∀ d, stream_compressor.StreamCompressor.decompress d = .crash ↔
      EncodedData.decode d = .crash) := by
  refine ⟨fun o => rfl, fun d o n => ?_, fun d e => ?_, fun d => ?_⟩ <;>
    · rw [stream_compressor.StreamCompressor.decompress]
      rcases EncodedData.decode d with ⟨o2, n2⟩ | e2 | _ <;> simp
